import Mathlib

/-!
Verification development for the devops-backend conversation store and
turn orchestrator.  The Go sources under `internal/` are shallowly
embedded: SQLite tables become lists of rows, `database/sql` queries
become list operations, and the opaque serialized message payload
(`message_data`, written with `json.Marshal` and read with
`json.Unmarshal`) becomes a `Blob` that either decodes to a `Msg` or is
malformed.  Random id generation (`generateID`) and wall-clock
timestamps are passed in as explicit parameters.
-/

namespace DevopsBackend

/-! ## Data model (`github.com/cloudwego/eino/schema` message shape) -/

/-- `schema.RoleType`: the four roles used by `parseRole`. -/
inductive RoleType where
  | user
  | assistant
  | system
  | tool
deriving DecidableEq, Repr

/-- `schema.ChatMessagePartType`: modality tag of a multimodal part.
`other` stands for any unknown part type (the `default` switch case). -/
inductive PartType where
  | text
  | imageURL
  | audioURL
  | videoURL
  | other
deriving DecidableEq, Repr

/-- `schema.MessageInputPart`: a user-authored multimodal part.
`payload` abstracts the image/audio/video URL data. -/
structure InputPart where
  type : PartType
  text : String
  payload : String
deriving DecidableEq, Repr

/-- `schema.MessageOutputPart`: an assistant-generated multimodal part. -/
structure OutputPart where
  type : PartType
  payload : String
deriving DecidableEq, Repr

/-- `schema.Message`, restricted to the fields the repository reads or
writes.  `toolCalls` and `extra` are kept opaque. -/
structure Msg where
  role : RoleType := .user
  content : String := ""
  reasoningContent : String := ""
  name : String := ""
  toolCalls : List String := []
  toolCallID : String := ""
  toolName : String := ""
  extra : String := ""
  userInputMultiContent : List InputPart := []
  assistantGenMultiContent : List OutputPart := []
deriving DecidableEq, Repr

/-- The serialized `message_data` column: `good m` is a blob written by
`json.Marshal(m)` (which round-trips through `json.Unmarshal`), `bad`
is a malformed/undecodable stored payload. -/
inductive Blob where
  | good (m : Msg)
  | bad
deriving DecidableEq, Repr

/-- `json.Unmarshal` of a stored payload. -/
def Blob.dec : Blob → Option Msg
  | .good m => some m
  | .bad => none

/-! ## Store rows (`session_trees`, `sessions`, `messages` tables) -/

/-- A row of the `messages` table.  `id` is the AUTOINCREMENT primary
key; `parentID` is the nullable `parent_id` column. -/
structure MsgNode where
  id : Nat
  sessionID : String
  parentID : Option Nat
  role : RoleType
  model : String
  data : Blob
deriving DecidableEq, Repr

/-- A row of the `sessions` table. -/
structure SessionRow where
  id : String
  treeID : String
  messageCount : Nat
deriving DecidableEq, Repr

/-- A row of the `session_trees` table.  `title` is nullable (`none` is
SQL NULL); creation timestamps are not modelled, `updatedAt` is. -/
structure TreeRow where
  id : String
  title : Option String
  updatedAt : Nat
deriving DecidableEq, Repr

/-- The whole SQLite database.  `messages` is kept in insertion order;
`nextMsgId` models the AUTOINCREMENT counter (ids are never reused). -/
structure Store where
  trees : List TreeRow
  sessions : List SessionRow
  messages : List MsgNode
  nextMsgId : Nat
deriving DecidableEq, Repr

/-- A freshly created database. -/
def emptyStore : Store := ⟨[], [], [], 1⟩

/-! ## TreeStore operations (`internal/data/session.go`) -/

/-- `SessionExists`: `SELECT 1 FROM sessions WHERE id = ?`. -/
def SessionExists (S : Store) (sessionID : String) : Bool :=
  S.sessions.any (fun s => s.id = sessionID)

/-- `GetTreeID`: `SELECT tree_id FROM sessions WHERE id = ?`
(`none` is the `biz.ErrSessionNotFound` path). -/
def GetTreeID (S : Store) (sessionID : String) : Option String :=
  (S.sessions.find? (fun s => s.id = sessionID)).map (fun s => s.treeID)

/-- `NewConversation`: inserts a tree row and its first, empty session.
The randomly generated ids are explicit parameters. -/
def NewConversation (S : Store) (treeID sessionID : String) (now : Nat) : Store :=
  { S with
    trees := S.trees ++ [⟨treeID, none, now⟩]
    sessions := S.sessions ++ [⟨sessionID, treeID, 0⟩] }

/-- `SELECT MAX(id) FROM messages WHERE session_id = ?`. -/
def maxIdOf : List MsgNode → Option Nat
  | [] => none
  | n :: rest =>
    match maxIdOf rest with
    | none => some n.id
    | some m => some (max n.id m)

/-- The parent chosen by `AppendMessage`: the session's current last
message id, if any. -/
def lastMsgIdOf (S : Store) (sessionID : String) : Option Nat :=
  maxIdOf (S.messages.filter (fun m => m.sessionID = sessionID))

/-- Title of the tree row `QueryRow` would return (NULL when the tree is
absent or its `title` column is NULL). -/
def treeTitle (S : Store) (treeID : String) : Option String :=
  (S.trees.find? (fun t => t.id = treeID)).bind (fun t => t.title)

/-- The `!currentTitle.Valid || currentTitle.String == ""` check. -/
def titleEmpty : Option String → Bool
  | none => true
  | some s => s = ""

/-- The `UPDATE sessions SET message_count = message_count + 1` row
function. -/
def bumpCount (sessionID : String) (s : SessionRow) : SessionRow :=
  if s.id = sessionID then { s with messageCount := s.messageCount + 1 } else s

/-- The `UPDATE session_trees SET title = ?` row function. -/
def setTitleRow (treeID newTitle : String) (t : TreeRow) : TreeRow :=
  if t.id = treeID then { t with title := some newTitle } else t

/-- The `UPDATE session_trees SET updated_at = CURRENT_TIMESTAMP` row
function. -/
def touchRow (treeID : String) (now : Nat) (t : TreeRow) : TreeRow :=
  if t.id = treeID then { t with updatedAt := now } else t

/-- `[]rune` truncation of the title source text: first 15 runes plus an
ellipsis marker when longer than 15. -/
def truncTitle (content : String) : String :=
  let runes := content.toList
  if runes.length > 15 then String.mk (runes.take 15) ++ "..." else content

/-- `updateMetadataAfterAppend`: bumps the session's `message_count`,
sets the tree title from the first nonempty user text, and touches
`updated_at`. -/
def updateMetadataAfterAppend (S : Store) (sessionID : String) (msg : Msg)
    (now : Nat) : Store :=
  let treeID := (GetTreeID S sessionID).getD ""
  let sessions' := S.sessions.map (bumpCount sessionID)
  let currentTitle := treeTitle S treeID
  let trees' :=
    if titleEmpty currentTitle ∧ msg.role = .user ∧ msg.content ≠ "" then
      S.trees.map (setTitleRow treeID (truncTitle msg.content))
    else
      S.trees
  let trees'' := trees'.map (touchRow treeID now)
  { S with sessions := sessions', trees := trees'' }

/-- Errors surfaced by the repository layer. -/
inductive RepoErr where
  | sessionNotFound
  | parentMessageNotFound
deriving DecidableEq, Repr

/-- `AppendMessage`: checks existence, picks the session's last message
as parent, inserts the serialized message, and updates metadata.  On the
NotFound path the store is returned unchanged. -/
def AppendMessage (S : Store) (sessionID : String) (msg : Msg) (model : String)
    (now : Nat) : Store × Except RepoErr Nat :=
  if SessionExists S sessionID then
    let parentID := lastMsgIdOf S sessionID
    let node : MsgNode :=
      ⟨S.nextMsgId, sessionID, parentID, msg.role, model, .good msg⟩
    let S' : Store := { S with messages := S.messages ++ [node],
                               nextMsgId := S.nextMsgId + 1 }
    (updateMetadataAfterAppend S' sessionID msg now, .ok S.nextMsgId)
  else
    (S, .error .sessionNotFound)

/-- The `messages JOIN sessions` lookup used by `CreateBranchWithMessage`
to find the parent message's tree. -/
def treeOfMessage (S : Store) (msgID : Nat) : Option String :=
  (S.messages.find? (fun m => m.id = msgID)).bind (fun m => GetTreeID S m.sessionID)

/-- `CreateBranchWithMessage`: creates a new session in the parent
message's tree and inserts the branch's first message with `parent_id`
pointing at the branch point (model column `""`). -/
def CreateBranchWithMessage (S : Store) (parentMsgID : Nat) (newSessionID : String)
    (msg : Msg) (now : Nat) : Store × Except RepoErr (String × Nat) :=
  match treeOfMessage S parentMsgID with
  | none => (S, .error .parentMessageNotFound)
  | some treeID =>
    let S₁ : Store := { S with sessions := S.sessions ++ [⟨newSessionID, treeID, 0⟩] }
    let node : MsgNode :=
      ⟨S₁.nextMsgId, newSessionID, some parentMsgID, msg.role, "", .good msg⟩
    let S₂ : Store := { S₁ with messages := S₁.messages ++ [node],
                                nextMsgId := S₁.nextMsgId + 1 }
    (updateMetadataAfterAppend S₂ newSessionID msg now,
     .ok (newSessionID, S₁.nextMsgId))

/-! ## `GetSessionMessages` (resolve a branch with its ancestors) -/

/-- `biz.ChatResponse`: a decoded message plus the `model` column. -/
structure ChatResponse where
  message : Msg
  model : String
deriving DecidableEq, Repr

/-- Insert a row into a list kept ascending by `id` (used to realize the
SQL `ORDER BY m.id`). -/
def insertById (n : MsgNode) : List MsgNode → List MsgNode
  | [] => [n]
  | m :: rest => if n.id ≤ m.id then n :: m :: rest else m :: insertById n rest

/-- Sort rows ascending by `id`: the `ORDER BY m.id` of the tree-wide
message query. -/
def sortById : List MsgNode → List MsgNode
  | [] => []
  | n :: rest => insertById n (sortById rest)

/-- The rows returned by the `messages m JOIN sessions s ... WHERE
s.tree_id = (SELECT tree_id FROM sessions WHERE id = ?) ORDER BY m.id`
query: every message owned by any session of the branch's tree.  When the
session does not exist the subquery yields NULL and no row matches. -/
def treeRows (S : Store) (sessionID : String) : List MsgNode :=
  match GetTreeID S sessionID with
  | none => []
  | some treeID =>
    sortById (S.messages.filter (fun m =>
      S.sessions.any (fun s => s.id = m.sessionID ∧ s.treeID = treeID)))

/-- The branch's own rows (`node.sessionID == sessionID`), in query
order. -/
def currentSessionMsgs (S : Store) (sessionID : String) : List MsgNode :=
  (treeRows S sessionID).filter (fun n => n.sessionID = sessionID)

/-- The id-indexed `msgMap` lookup. -/
def findNode (rows : List MsgNode) (id : Nat) : Option MsgNode :=
  rows.find? (fun n => n.id = id)

/-- The ancestor loop of `GetSessionMessages`: `for parentID > 0`, look
the parent up in the map, prepend it when its payload decodes, and follow
its own `parent_id`; stop on a missing row or a NULL parent.  The Go loop
has no fuel; `fuel` bounds the number of iterations the embedding
unfolds, and termination claims show the result is fuel-independent once
`fuel` exceeds the starting parent id. -/
def walkAnc (rows : List MsgNode) : Nat → Nat → List MsgNode → List MsgNode
  | 0, _, acc => acc
  | _ + 1, 0, acc => acc
  | fuel + 1, pid + 1, acc =>
    match findNode rows (pid + 1) with
    | none => acc
    | some node =>
      let acc' := if (node.data.dec).isSome then node :: acc else acc
      match node.parentID with
      | some p => walkAnc rows fuel p acc'
      | none => acc'

/-- Decode a row into the `ChatResponse` the resolver emits for it (only
applied to rows whose payload decodes). -/
def nodeCR (n : MsgNode) : ChatResponse :=
  match n.data with
  | .good m => ⟨m, n.model⟩
  | .bad => ⟨{}, n.model⟩

/-- Decode a row, skipping it when `json.Unmarshal` fails. -/
def nodeDec (n : MsgNode) : Option ChatResponse :=
  (n.data.dec).map (fun m => ⟨m, n.model⟩)

/-- `GetSessionMessages`: loads the whole tree's rows, returns `none`
(`nil`) when the branch has no rows, otherwise the ancestors collected by
the parent-chain walk followed by the branch's own decodable rows. -/
def GetSessionMessages (S : Store) (sessionID : String) :
    Option (List ChatResponse) :=
  let rows := treeRows S sessionID
  let cur := rows.filter (fun n => n.sessionID = sessionID)
  match cur with
  | [] => none
  | first :: _ =>
    let ancestors :=
      match first.parentID with
      | some pid => walkAnc rows (pid + 1) pid []
      | none => []
    some (ancestors.map nodeCR ++ cur.filterMap nodeDec)

/-- `DeleteTree`: cascading delete of the tree, its sessions and their
messages (the SQLite `ON DELETE CASCADE` chain). -/
def DeleteTree (S : Store) (treeID : String) : Store :=
  let deadSessions := S.sessions.filter (fun s => s.treeID = treeID)
  { S with
    trees := S.trees.filter (fun t => ¬ t.id = treeID)
    sessions := S.sessions.filter (fun s => ¬ s.treeID = treeID)
    messages := S.messages.filter (fun m =>
      ¬ deadSessions.any (fun s => s.id = m.sessionID)) }

/-! ## Capability registry and outbound content filter
(`internal/data/message`, the `message` package) -/

/-- `ModelCapabilities`: the supported-modality map (a missing key reads
as `false` in Go) plus the non-streaming-fallback flag. -/
structure ModelCapabilities where
  supportsText : Bool
  supportsImage : Bool
  supportsAudio : Bool
  supportsVideo : Bool
  requiresNonStreaming : Bool
deriving DecidableEq, Repr

/-- The registry is a lookup from backend name to capabilities; `none`
means "not registered" (permissive default).  The global registry is the
hardcoded table merged with an optional external config file, so the
filter is parameterized by the lookup. -/
def CapLookup := String → Option ModelCapabilities

/-- `loadHardcodedCapabilities`: deepseek is text-only; the two listed
image-generation Gemini models support everything but require the
non-streaming fallback. -/
def hardcodedCaps : CapLookup := fun name =>
  if name = "deepseek" then
    some ⟨true, false, false, false, false⟩
  else if name = "gemini-3-pro-image-preview" ∨ name = "gemini-2.5-flash-image" then
    some ⟨true, true, true, true, true⟩
  else
    none

/-- `filterInputMultiContent`: replace unsupported user-authored
image/audio/video parts with bracketed text placeholders; text parts are
kept only when text is supported; unknown part types are kept. -/
def filterInputMultiContent : List InputPart → ModelCapabilities → List InputPart
  | [], _ => []
  | part :: rest, caps =>
    let filtered := filterInputMultiContent rest caps
    match part.type with
    | .text => if caps.supportsText then part :: filtered else filtered
    | .imageURL =>
      if caps.supportsImage then part :: filtered
      else ⟨.text, "[Image]", ""⟩ :: filtered
    | .audioURL =>
      if caps.supportsAudio then part :: filtered
      else ⟨.text, "[Audio]", ""⟩ :: filtered
    | .videoURL =>
      if caps.supportsVideo then part :: filtered
      else ⟨.text, "[Video]", ""⟩ :: filtered
    | .other => part :: filtered

/-- `strings.Join(_, " ")`. -/
def joinSpace : List String → String
  | [] => ""
  | [s] => s
  | s :: rest => s ++ " " ++ joinSpace rest

/-- `buildContentPlaceholders`: bracket tags for the unsupported
assistant-generated parts, joined with spaces (`""` when there are
none). -/
def buildContentPlaceholders (parts : List OutputPart)
    (caps : ModelCapabilities) : String :=
  let placeholders := parts.filterMap (fun part =>
    match part.type with
    | .imageURL => if caps.supportsImage then none else some "[Image]"
    | .audioURL => if caps.supportsAudio then none else some "[Audio]"
    | .videoURL => if caps.supportsVideo then none else some "[Video]"
    | _ => none)
  if placeholders.length > 0 then joinSpace placeholders else ""

/-- The per-message body of `FilterMultimodalContent`'s loop: copy the
scalar fields, filter the user-authored parts, fold assistant-generated
parts into appended placeholders (dropping the raw parts), and keep the
reasoning text when text is supported. -/
def filterOneMessage (caps : ModelCapabilities) (msg : Msg) : Msg :=
  let base : Msg :=
    { role := msg.role, content := msg.content, name := msg.name
      toolCalls := msg.toolCalls, toolCallID := msg.toolCallID
      toolName := msg.toolName, extra := msg.extra }
  let base :=
    if msg.userInputMultiContent.length > 0 then
      { base with userInputMultiContent :=
          filterInputMultiContent msg.userInputMultiContent caps }
    else base
  let base :=
    if msg.assistantGenMultiContent.length > 0 then
      let placeholders := buildContentPlaceholders msg.assistantGenMultiContent caps
      if placeholders.length > 0 then
        if base.content ≠ "" then
          { base with content := base.content ++ "\n" ++ placeholders }
        else
          { base with content := placeholders }
      else base
    else base
  if msg.reasoningContent ≠ "" ∧ ¬ caps.supportsText then
    { base with content := base.content ++ "\n[Reasoning Content]" }
  else
    { base with reasoningContent := msg.reasoningContent }

/-- `FilterMultimodalContent`: unknown backends pass through unchanged;
backends supporting all of image/audio/video skip filtering; otherwise
every message is rewritten by `filterOneMessage`. -/
def FilterMultimodalContent (getCaps : CapLookup) (messages : List Msg)
    (clientName : String) : List Msg :=
  match getCaps clientName with
  | none => messages
  | some caps =>
    let needsFiltering :=
      ¬ caps.supportsImage ∨ ¬ caps.supportsAudio ∨ ¬ caps.supportsVideo
    if needsFiltering then messages.map (filterOneMessage caps) else messages

/-! ## Backend router (`internal/data/client.go`) -/

/-- `strings.HasPrefix` on character lists (first argument is the
needle). -/
def startsWithL : List Char → List Char → Bool
  | [], _ => true
  | _ :: _, [] => false
  | a :: as, b :: bs => a == b && startsWithL as bs

/-- `strings.Contains` on character lists (first argument is the
needle). -/
def containsL (needle : List Char) : List Char → Bool
  | [] => needle.isEmpty
  | b :: bs => startsWithL needle (b :: bs) || containsL needle bs

/-- Go's `strings.Contains`. -/
def containsSub (s sub : String) : Bool :=
  containsL sub.toList s.toList

/-- Go's `strings.HasPrefix`. -/
def strStartsWith (s pre : String) : Bool :=
  startsWithL pre.toList s.toList

/-- ASCII lowering of one character (`unicode.ToLower` restricted to the
ASCII range the keyword tables use). -/
def toLowerChar (c : Char) : Char :=
  if 'A' ≤ c ∧ c ≤ 'Z' then Char.ofNat (c.toNat + 32) else c

/-- Go's `strings.ToLower` (ASCII fragment). -/
def lowerStr (s : String) : String :=
  String.mk (s.toList.map toLowerChar)

/-- The hardcoded `clientKeywords` map, listed in source order.  Go
iterates maps in unspecified order, so functions below take the
enumeration order as a parameter ranging over permutations of this
list. -/
def clientKeywordsList : List (String × List String) :=
  [("openai", ["gpt", "o1", "o3", "o4", "chatgpt"]),
   ("claude", ["claude"]),
   ("ark", ["doubao", "ep-"]),
   ("arkbot", ["bot-"]),
   ("deepseek", ["deepseek"]),
   ("gemini", ["gemini"]),
   ("grok", ["grok"]),
   ("glm", ["glm"]),
   ("kimi", ["kimi"]),
   ("minimax", ["minimax"]),
   ("ollama", ["llama", "gemma", "phi", "mistral", "codellama", "vicuna"]),
   ("openrouter", ["openrouter/"]),
   ("qianfan", ["ernie", "qianfan"]),
   ("qwen", ["qwen"])]

/-- The inner keyword loop: the first keyword that is a case-insensitive
substring of the model name elects `clientName`, provided that client is
configured. -/
def scanKeywords (clients : List String) (modelLower : String)
    (clientName : String) (keywords : List String) : Option String :=
  keywords.findSome? (fun kw =>
    if containsSub modelLower (lowerStr kw) ∧ clients.contains clientName then
      some clientName
    else none)

/-- `ResolveClient`, with the keyword-map iteration order explicit: an
explicitly requested configured client wins; otherwise the first client
in `order` with a matching keyword that is configured; otherwise
`"openai"`. -/
def ResolveClientOrd (clients : List String) (order : List (String × List String))
    (modelName requestClient : String) : String :=
  if requestClient ≠ "" ∧ clients.contains requestClient then
    requestClient
  else
    match order.findSome? (fun e => scanKeywords clients (lowerStr modelName) e.1 e.2) with
    | some c => c
    | none => "openai"

/-- `ResolveClient` read with the keyword table in source order. -/
def ResolveClient (clients : List String) (modelName requestClient : String) : String :=
  ResolveClientOrd clients clientKeywordsList modelName requestClient

/-! ## Adapters and the tri-state thinking signal
(`internal/data/adapter`, `internal/biz` request params) -/

/-- The reasoning-effort levels the OpenAI-compatible adapters emit. -/
inductive EffortLevel where
  | high
  | low
  | none
deriving DecidableEq, Repr

/-- Gemini's `genai.ThinkingLevel` values used here. -/
inductive ThinkingLevel where
  | high
  | low
deriving DecidableEq, Repr

/-- `model.Option` values the repository constructs: the wrapped
`biz.RequestParams` carrier and each backend-specific option. -/
inductive ModelOption where
  | withParams (thinking : Option Bool)
  | reasoningEffort (level : EffortLevel)
  | reasoningSummary (detailed : Bool)
  | geminiThinking (includeThoughts : Bool) (level : ThinkingLevel)
  | claudeThinking (enable : Bool) (budgetTokens : Nat)
deriving DecidableEq, Repr

/-- `biz.GetParams`: fold the option list, each `WithParams` copying its
non-nil `Thinking` over the accumulator (zero value `nil`). -/
def GetParams (opts : List ModelOption) : Option Bool :=
  opts.foldl (fun acc o =>
    match o with
    | .withParams (some b) => some b
    | _ => acc) none

/-- `supportsReasoningEffort` (Chat Completions adapter): o1/o3 prefixes
or a gpt-5/6/7 substring. -/
def supportsReasoningEffort (modelName : String) : Bool :=
  let m := lowerStr modelName
  strStartsWith m "o1" || strStartsWith m "o3" ||
    containsSub m "gpt-5" || containsSub m "gpt-6" || containsSub m "gpt-7"

/-- `isGPT51OrLater`: gpt-5.1/5.2 or gpt-6/7. -/
def isGPT51OrLater (modelName : String) : Bool :=
  let m := lowerStr modelName
  containsSub m "gpt-5.1" || containsSub m "gpt-5.2" ||
    containsSub m "gpt-6" || containsSub m "gpt-7"

/-- `isGrokReasoningModel`: the model name contains "reasoning". -/
def isGrokReasoningModel (modelName : String) : Bool :=
  containsSub (lowerStr modelName) "reasoning"

/-- `supportsResponsesAPIReasoning`: o1/o3/o4 prefixes or gpt-5/6/7. -/
def supportsResponsesAPIReasoning (modelName : String) : Bool :=
  let m := lowerStr modelName
  strStartsWith m "o1" || strStartsWith m "o3" || strStartsWith m "o4" ||
    containsSub m "gpt-5" || containsSub m "gpt-6" || containsSub m "gpt-7"

/-- `OpenAIAdapter.injectReasoningEffort`: inject only when the thinking
signal is set and the model is a reasoning model; `false` maps to `none`
on gpt-5.1+ and `low` before. -/
def openAIInjectReasoningEffort (modelName : String)
    (opts : List ModelOption) : List ModelOption :=
  match GetParams opts with
  | Option.none => opts
  | some think =>
    if ¬ supportsReasoningEffort modelName then opts
    else if think then opts ++ [.reasoningEffort .high]
    else if isGPT51OrLater modelName then opts ++ [.reasoningEffort .none]
    else opts ++ [.reasoningEffort .low]

/-- `GrokAdapter.injectReasoningEffort`: inject only when set and the
model name contains "reasoning". -/
def grokInjectReasoningEffort (modelName : String)
    (opts : List ModelOption) : List ModelOption :=
  match GetParams opts with
  | Option.none => opts
  | some think =>
    if ¬ isGrokReasoningModel modelName then opts
    else if think then opts ++ [.reasoningEffort .high]
    else opts ++ [.reasoningEffort .low]

/-- `ClaudeAdapter.injectThinkingConfig`: only an explicit `true` adds
the extended-thinking option (32k budget). -/
def claudeInjectThinkingConfig (opts : List ModelOption) : List ModelOption :=
  match GetParams opts with
  | some true => opts ++ [.claudeThinking true 32000]
  | _ => opts

/-- `OpenAIResponseAdapter.injectReasoningConfig`: inject only when set
and the model supports Responses-API reasoning. -/
def openAIResponseInjectReasoningConfig (modelName : String)
    (opts : List ModelOption) : List ModelOption :=
  match GetParams opts with
  | Option.none => opts
  | some think =>
    if ¬ supportsResponsesAPIReasoning modelName then opts
    else if think then
      opts ++ [.reasoningEffort .high, .reasoningSummary true]
    else
      opts ++ [.reasoningEffort .low]

/-- `GeminiAdapter.injectThinkingConfig`: `nil` or `true` enables
thinking (IncludeThoughts, level High); `false` disables (level Low).  A
thinking config is appended in every case. -/
def geminiInjectThinkingConfig (opts : List ModelOption) : List ModelOption :=
  match GetParams opts with
  | Option.none => opts ++ [.geminiThinking true .high]
  | some true => opts ++ [.geminiThinking true .high]
  | some false => opts ++ [.geminiThinking false .low]

/-! ## Turn orchestrator (`internal/biz/session.go`, `ChatUsecase`) -/

/-- `parseRole`: unknown role strings default to `user`. -/
def parseRole (role : String) : RoleType :=
  if role = "system" then .system
  else if role = "assistant" then .assistant
  else if role = "tool" then .tool
  else .user

/-- `biz.ChatRequest`: the inbound turn request (embedded message fields
plus model/client/session/thinking). -/
structure ChatRequest where
  role : String := ""
  content : String := ""
  name : String := ""
  toolCalls : List String := []
  toolCallID : String := ""
  toolName : String := ""
  reasoningContent : String := ""
  extra : String := ""
  userInputMultiContent : List InputPart := []
  assistantGenMultiContent : List OutputPart := []
  model : String := ""
  client : String := ""
  session : String := ""
  thinking : Option Bool := Option.none
deriving DecidableEq, Repr

/-- The user message both `Chat` and `ChatStream` build from the
request. -/
def userMsgOfReq (req : ChatRequest) : Msg :=
  { role := parseRole req.role, content := req.content, name := req.name
    userInputMultiContent := req.userInputMultiContent
    assistantGenMultiContent := req.assistantGenMultiContent
    toolCalls := req.toolCalls, toolCallID := req.toolCallID
    toolName := req.toolName, reasoningContent := req.reasoningContent
    extra := req.extra }

/-- Orchestrator errors (the `chatError` wrappers plus the plain
"session not found" error of the stream path). -/
inductive ChatErr where
  | sessionNotFound
  | appendUserMessage (e : RepoErr)
  | getSession
  | recvStream (msg : String)
  | appendAssistantMessage (e : RepoErr)
deriving DecidableEq, Repr

/-- `ChatUsecase.GetSession`: a `nil` resolve is reported as
`ErrSessionNotFound`. -/
def GetSession (S : Store) (sessionID : String) :
    Except ChatErr (List ChatResponse) :=
  match GetSessionMessages S sessionID with
  | Option.none => .error .sessionNotFound
  | some session => .ok session

/-- `biz.StreamChunk`: one incremental delta forwarded to the caller. -/
structure StreamChunk where
  content : String := ""
  reasoningContent : String := ""
  assistantGenMultiContent : List OutputPart := []
deriving DecidableEq, Repr

/-- The callback trace of one streaming turn: the start-of-turn
notification followed by the chunk callbacks, in invocation order. -/
inductive StreamEvent where
  | start (treeID sessionID : String) (isNew : Bool)
  | chunk (c : StreamChunk)
deriving DecidableEq, Repr

/-- A scripted backend stream: the messages successive `Recv` calls
yield, then either a clean `io.EOF` (`err = none`) or a receive error. -/
structure Script where
  chunks : List Msg
  err : Option String
deriving DecidableEq, Repr

/-- The receive loop of `ChatStream`: fold every scripted chunk into the
three accumulators (`fullContent`, `fullReasoning`, `multiContent`) and
fire the chunk callback whenever the chunk carries any content. -/
def consumeStream : List Msg → List StreamEvent → String → String →
    List OutputPart → List StreamEvent × String × String × List OutputPart
  | [], events, fc, fr, mc => (events, fc, fr, mc)
  | c :: rest, events, fc, fr, mc =>
    let fr' := if c.reasoningContent ≠ "" then fr ++ c.reasoningContent else fr
    let fc' := if c.content ≠ "" then fc ++ c.content else fc
    let mc' := if c.assistantGenMultiContent.length > 0 then
        mc ++ c.assistantGenMultiContent else mc
    let events' :=
      if c.content ≠ "" ∨ c.reasoningContent ≠ "" ∨
          c.assistantGenMultiContent.length > 0 then
        events ++ [.chunk ⟨c.content, c.reasoningContent, c.assistantGenMultiContent⟩]
      else events
    consumeStream rest events' fc' fr' mc'

/-- Result of one streaming turn: the callback trace, the store after
the turn, and the error returned to the caller (if any). -/
structure StreamOut where
  events : List StreamEvent
  store : Store
  err : Option ChatErr
deriving DecidableEq, Repr

/-- `ChatUsecase.ChatStream`.  Session resolution (`NewConversation`
when no session id is supplied, `GetTreeID` otherwise), the start-of-turn
callback, the user-message append, the branch resolve, the receive loop
over the scripted backend stream, and — only on clean end-of-stream —
the single append of the assistant message assembled from the
accumulators, tagged with the resolved model name.  The backend handle
itself is opaque: its `Recv` results are the `script`.  The system-prompt
prepend and `ResolveClient` call do not affect the modelled outputs and
are omitted; the fresh ids `NewConversation` would generate and the
clock are explicit parameters. -/
def ChatStream (S : Store) (freshTreeID freshSessionID : String) (now : Nat)
    (defaultModel : String) (req : ChatRequest) (script : Script) : StreamOut :=
  -- 1. session validation / creation
  let resolved : Option (Store × String × String × Bool) :=
    if req.session = "" then
      some (NewConversation S freshTreeID freshSessionID now,
            freshTreeID, freshSessionID, true)
    else
      match GetTreeID S req.session with
      | Option.none => Option.none
      | some treeID => some (S, treeID, req.session, false)
  match resolved with
  | Option.none => ⟨[], S, some .sessionNotFound⟩
  | some (S₀, treeID, sessionID, isNew) =>
    -- 2. start-of-turn notification, before the user message is persisted
    let events₀ : List StreamEvent := [.start treeID sessionID isNew]
    -- 3. persist the user message
    let userMsg := userMsgOfReq req
    match AppendMessage S₀ sessionID userMsg "" now with
    | (S₁, .error e) => ⟨events₀, S₁, some (.appendUserMessage e)⟩
    | (S₁, .ok _) =>
      match GetSessionMessages S₁ sessionID with
      | Option.none => ⟨events₀, S₁, some .getSession⟩
      | some _session =>
        let modelName := if req.model = "" then defaultModel else req.model
        -- receive loop over the scripted backend stream
        let (events, fullContent, fullReasoning, multiContent) :=
          consumeStream script.chunks events₀ "" "" []
        match script.err with
        | some e => ⟨events, S₁, some (.recvStream e)⟩
        | Option.none =>
          -- clean end of stream: persist the assistant message once
          let assistantMsg : Msg :=
            { role := .assistant, content := fullContent
              reasoningContent := fullReasoning
              assistantGenMultiContent := multiContent }
          match AppendMessage S₁ sessionID assistantMsg modelName now with
          | (S₂, .error e) => ⟨events, S₂, some (.appendAssistantMessage e)⟩
          | (S₂, .ok _) => ⟨events, S₂, Option.none⟩

/-! ## SSE transport (`internal/api/chat.go`, `ChatHandler.chat`) -/

/-- The server-sent events the handler writes. -/
inductive SSE where
  | info (treeID sessionID : String) (isNew : Bool)
  | reasoning (s : String)
  | content (s : String)
  | image (payload : String)
  | audio (payload : String)
  | video (payload : String)
  | multimodal (p : OutputPart)
  | done
  | errorInvalidSession
  | errorOther
deriving DecidableEq, Repr

/-- `sendStreamChunk`: reasoning first, then content, then one event per
multimodal part (text parts skipped, unknown types via `multimodal`). -/
def sendStreamChunk (c : StreamChunk) : List SSE :=
  (if c.reasoningContent ≠ "" then [.reasoning c.reasoningContent] else []) ++
  (if c.content ≠ "" then [.content c.content] else []) ++
  c.assistantGenMultiContent.filterMap (fun part =>
    match part.type with
    | .text => Option.none
    | .imageURL => some (.image part.payload)
    | .audioURL => some (.audio part.payload)
    | .videoURL => some (.video part.payload)
    | .other => some (.multimodal part))

/-- Render the orchestrator's callback trace as SSE events. -/
def renderEvents (events : List StreamEvent) : List SSE :=
  events.flatMap (fun e =>
    match e with
    | .start treeID sessionID isNew => [.info treeID sessionID isNew]
    | .chunk c => sendStreamChunk c)

/-- The Go `Error()` text of a repository error. -/
def RepoErr.msgText : RepoErr → String
  | .sessionNotFound => "session not found"
  | .parentMessageNotFound => "parent message not found"

/-- The Go `Error()` text of an orchestrator error (the `chatError`
wrapper prepends its operation name). -/
def ChatErr.msgText : ChatErr → String
  | .sessionNotFound => "session not found"
  | .appendUserMessage e => "append user message: " ++ e.msgText
  | .getSession => "get session: session not found"
  | .recvStream m => "recv stream: " ++ m
  | .appendAssistantMessage e => "append assistant message: " ++ e.msgText

/-- `ChatHandler.chat`: run the streaming turn, render its callbacks,
and close with the `done` sentinel on success or an error event on
failure (an error whose text contains "session not found" gets the
machine-readable `invalid_session` code). -/
def handlerChat (S : Store) (freshTreeID freshSessionID : String) (now : Nat)
    (defaultModel : String) (req : ChatRequest) (script : Script) :
    List SSE × Store :=
  let out := ChatStream S freshTreeID freshSessionID now defaultModel req script
  let tail : List SSE :=
    match out.err with
    | Option.none => [.done]
    | some e =>
      if containsSub (ChatErr.msgText e) "session not found" then
        [.errorInvalidSession]
      else
        [.errorOther]
  (renderEvents out.events ++ tail, out.store)

/-! ## Reachable stores -/

/-- Stores reachable through `NewConversation`, `AppendMessage` and
`CreateBranchWithMessage` from a fresh database (the error paths of the
latter two leave the store unchanged, so the constructors cover both
outcomes). -/
inductive Reachable : Store → Prop where
  | init : Reachable emptyStore
  | newConv (S : Store) (treeID sessionID : String) (now : Nat) :
      Reachable S → Reachable (NewConversation S treeID sessionID now)
  | append (S : Store) (sessionID : String) (msg : Msg) (model : String) (now : Nat) :
      Reachable S → Reachable (AppendMessage S sessionID msg model now).1
  | branch (S : Store) (parentMsgID : Nat) (newSessionID : String) (msg : Msg) (now : Nat) :
      Reachable S → Reachable (CreateBranchWithMessage S parentMsgID newSessionID msg now).1

/-- Every message's parent id, when set, is strictly below its own id
(checked row by row). -/
def parentLtB (l : List MsgNode) : Bool :=
  l.all (fun m =>
    match m.parentID with
    | some p => p < m.id
    | Option.none => true)

/-! ## Basic lemmas about the store operations -/

theorem mem_insertById {a n : MsgNode} {l : List MsgNode} :
    a ∈ insertById n l ↔ a = n ∨ a ∈ l := by
  induction l with
  | nil => simp [insertById]
  | cons m rest ih =>
    by_cases h : n.id ≤ m.id <;> simp [insertById, h, ih] <;> tauto

theorem mem_sortById {a : MsgNode} {l : List MsgNode} :
    a ∈ sortById l ↔ a ∈ l := by
  induction l with
  | nil => simp [sortById]
  | cons n rest ih => simp [sortById, mem_insertById, ih]

/-- On rows already ascending by id, the `ORDER BY` sort is the
identity. -/
theorem sortById_eq_of_pairwise {l : List MsgNode}
    (h : List.Pairwise (fun a b => a.id < b.id) l) : sortById l = l := by
  induction l with
  | nil => rfl
  | cons n rest ih =>
    have hrest := ih h.of_cons
    rw [sortById, hrest]
    cases rest with
    | nil => simp [insertById]
    | cons m rest' =>
      have hlt : n.id < m.id :=
        List.rel_of_pairwise_cons h (List.mem_cons_self m rest')
      simp [insertById, Nat.le_of_lt hlt]

theorem parentLtB_iff {l : List MsgNode} :
    parentLtB l = true ↔ ∀ n ∈ l, ∀ p, n.parentID = some p → p < n.id := by
  constructor
  · intro h n hn p hp
    have := List.all_eq_true.mp h n hn
    simpa [hp] using this
  · intro h
    refine List.all_eq_true.mpr (fun n hn => ?_)
    cases hpar : n.parentID with
    | none => simp
    | some p => simpa using h n hn p hpar

theorem maxIdOf_mem {l : List MsgNode} {m : Nat} (h : maxIdOf l = some m) :
    ∃ n ∈ l, n.id = m := by
  induction l generalizing m with
  | nil => simp [maxIdOf] at h
  | cons n rest ih =>
    rw [maxIdOf] at h
    cases hrest : maxIdOf rest with
    | none =>
      rw [hrest] at h
      exact ⟨n, by simp, by simpa using h⟩
    | some k =>
      rw [hrest] at h
      have hm : max n.id k = m := by simpa using h
      rcases max_choice n.id k with hc | hc
      · exact ⟨n, by simp, by omega⟩
      · obtain ⟨n', hn', hid⟩ := ih hrest
        exact ⟨n', by simp [hn'], by omega⟩

/-- `updateMetadataAfterAppend` touches only `sessions` and `trees`. -/
theorem um_messages (S : Store) (sid : String) (msg : Msg) (now : Nat) :
    (updateMetadataAfterAppend S sid msg now).messages = S.messages := rfl

theorem um_nextMsgId (S : Store) (sid : String) (msg : Msg) (now : Nat) :
    (updateMetadataAfterAppend S sid msg now).nextMsgId = S.nextMsgId := rfl

/-- `find?` commutes with mapping a row function that does not change
the searched predicate. -/
theorem find?_map_eq {α : Type} (l : List α) (p : α → Bool) (f : α → α)
    (h : ∀ t, p (f t) = p t) : (l.map f).find? p = (l.find? p).map f := by
  rw [List.find?_map]
  have hpf : p ∘ f = p := funext (fun t => by simp [Function.comp, h t])
  rw [hpf]

theorem bumpCount_id (sid : String) (s : SessionRow) : (bumpCount sid s).id = s.id := by
  by_cases h : s.id = sid <;> simp [bumpCount, h]

theorem setTitleRow_id (tid nt : String) (t : TreeRow) :
    (setTitleRow tid nt t).id = t.id := by
  by_cases h : t.id = tid <;> simp [setTitleRow, h]

theorem touchRow_id (tid : String) (now : Nat) (t : TreeRow) :
    (touchRow tid now t).id = t.id := by
  by_cases h : t.id = tid <;> simp [touchRow, h]

theorem touchRow_title (tid : String) (now : Nat) (t : TreeRow) :
    (touchRow tid now t).title = t.title := by
  by_cases h : t.id = tid <;> simp [touchRow, h]

theorem um_SessionExists (S : Store) (sid : String) (msg : Msg) (now : Nat)
    (x : String) :
    SessionExists (updateMetadataAfterAppend S sid msg now) x = SessionExists S x := by
  simp only [SessionExists, updateMetadataAfterAppend, List.any_map]
  congr 1
  funext s
  simp [Function.comp, bumpCount_id]

theorem um_GetTreeID (S : Store) (sid : String) (msg : Msg) (now : Nat)
    (x : String) :
    GetTreeID (updateMetadataAfterAppend S sid msg now) x = GetTreeID S x := by
  simp only [GetTreeID, updateMetadataAfterAppend]
  rw [find?_map_eq _ _ _ (fun s => by simp [bumpCount_id])]
  cases hf : S.sessions.find? (fun s => s.id = x) with
  | none => simp
  | some s => simp [bumpCount_id, bumpCount]
              <;> by_cases h : s.id = sid <;> simp [h]

/-- Successful append, spelled out. -/
theorem AppendMessage_ok (S : Store) (sid : String) (msg : Msg) (mdl : String)
    (now : Nat) (h : SessionExists S sid = true) :
    AppendMessage S sid msg mdl now =
      (updateMetadataAfterAppend
        { S with
          messages := S.messages ++
            [⟨S.nextMsgId, sid, lastMsgIdOf S sid, msg.role, mdl, .good msg⟩]
          nextMsgId := S.nextMsgId + 1 } sid msg now,
       .ok S.nextMsgId) := by
  simp [AppendMessage, h]

theorem GetTreeID_some_exists {S : Store} {sid t : String}
    (h : GetTreeID S sid = some t) :
    ∃ s ∈ S.sessions, s.id = sid ∧ s.treeID = t := by
  simp only [GetTreeID, Option.map_eq_some'] at h
  obtain ⟨s, hs, ht⟩ := h
  exact ⟨s, List.mem_of_find?_eq_some hs, by simpa using List.find?_some hs, ht⟩

theorem GetTreeID_some_of_exists {S : Store} {sid : String}
    (h : SessionExists S sid = true) : ∃ t, GetTreeID S sid = some t := by
  simp only [SessionExists, List.any_eq_true] at h
  obtain ⟨s, hs, hid⟩ := h
  have : (S.sessions.find? (fun s => s.id = sid)).isSome := by
    rw [List.find?_isSome]
    exact ⟨s, hs, hid⟩
  obtain ⟨s', hs'⟩ := Option.isSome_iff_exists.mp this
  exact ⟨s'.treeID, by simp [GetTreeID, hs']⟩

theorem SessionExists_of_GetTreeID {S : Store} {sid t : String}
    (h : GetTreeID S sid = some t) : SessionExists S sid = true := by
  obtain ⟨s, hs, hid, _⟩ := GetTreeID_some_exists h
  exact List.any_eq_true.mpr ⟨s, hs, by simp [hid]⟩

theorem GetTreeID_none_of_not_exists {S : Store} {sid : String}
    (h : SessionExists S sid = false) : GetTreeID S sid = Option.none := by
  simp only [SessionExists, List.any_eq_false] at h
  simp only [GetTreeID, Option.map_eq_none']
  exact List.find?_eq_none.mpr h

/-- The resolver answers `nil` exactly when the branch owns no rows. -/
theorem GetSessionMessages_eq_none_iff (S : Store) (sid : String) :
    GetSessionMessages S sid = Option.none ↔ currentSessionMsgs S sid = [] := by
  unfold GetSessionMessages currentSessionMsgs
  cases hcur : (treeRows S sid).filter (fun n => n.sessionID = sid) with
  | nil => simp [hcur]
  | cons first rest => simp [hcur]

/-- The tree title after `updateMetadataAfterAppend`: set to the
(possibly truncated) message text exactly when the title was still
empty and a nonempty user text arrived; otherwise untouched. -/
theorem um_treeTitle (S : Store) (sid : String) (msg : Msg) (now : Nat)
    (htr : S.trees.any (fun t => t.id = (GetTreeID S sid).getD "") = true) :
    treeTitle (updateMetadataAfterAppend S sid msg now) ((GetTreeID S sid).getD "") =
      if titleEmpty (treeTitle S ((GetTreeID S sid).getD "")) ∧
          msg.role = .user ∧ msg.content ≠ "" then
        some (if msg.content.toList.length > 15
              then String.mk (msg.content.toList.take 15) ++ "..."
              else msg.content)
      else treeTitle S ((GetTreeID S sid).getD "") := by
  set tid := (GetTreeID S sid).getD "" with htid
  unfold updateMetadataAfterAppend
  rw [← htid]
  dsimp only
  by_cases hcond : titleEmpty (treeTitle S tid) ∧ msg.role = .user ∧ msg.content ≠ ""
  · rw [if_pos hcond]
    simp only [treeTitle]
    rw [find?_map_eq _ _ _ (fun t => by simp [touchRow_id]),
        find?_map_eq _ _ _ (fun t => by simp [setTitleRow_id])]
    have hsome : (S.trees.find? (fun t => t.id = tid)).isSome := by
      rw [List.find?_isSome]
      obtain ⟨t, ht, hid⟩ := List.any_eq_true.mp htr
      exact ⟨t, ht, hid⟩
    obtain ⟨tr, htr'⟩ := Option.isSome_iff_exists.mp hsome
    have hid : tr.id = tid := by simpa using List.find?_some htr'
    have htt : treeTitle S tid = tr.title := by simp [treeTitle, htr']
    have hcond' : titleEmpty tr.title = true ∧ msg.role = .user ∧ msg.content ≠ "" := by
      rwa [htt] at hcond
    simp only [htr', Option.map_some', Option.some_bind]
    rw [if_pos hcond']
    simp [setTitleRow, touchRow, hid, truncTitle]
  · rw [if_neg hcond]
    simp only [treeTitle]
    rw [find?_map_eq _ _ _ (fun t => by simp [touchRow_id])]
    cases hf : S.trees.find? (fun t => t.id = tid) with
    | none =>
      have htt : treeTitle S tid = Option.none := by simp [treeTitle, hf]
      rw [htt] at hcond
      simp only [Option.map_none', Option.none_bind]
      rw [if_neg hcond]
    | some tr =>
      have htt : treeTitle S tid = tr.title := by simp [treeTitle, hf]
      rw [htt] at hcond
      simp only [Option.map_some', Option.some_bind]
      rw [if_neg hcond]
      simp [touchRow_title]

/-! ## Concrete stores used by witnesses -/

/-- One fresh conversation: tree `t1` with empty branch `s1`. -/
def sampleStore : Store := NewConversation emptyStore "t1" "s1" 0

/-! ## Claims -/

/-- C7: appending a message to a session id that does not exist fails
with the NotFound error and leaves the store completely unchanged — no
message row, no message-count bump, no tree metadata update. -/
theorem c7_append_missing_session (S : Store) (sessionID : String) (msg : Msg)
    (model : String) (now : Nat) (h : SessionExists S sessionID = false) :
    AppendMessage S sessionID msg model now = (S, .error .sessionNotFound) := by
  simp [AppendMessage, h]

theorem c7_append_missing_session_witness :
    SessionExists sampleStore "missing" = false ∧
    AppendMessage sampleStore "missing" { content := "hi" } "" 7 =
      (sampleStore, .error .sessionNotFound) :=
  ⟨by decide,
   c7_append_missing_session sampleStore "missing" { content := "hi" } "" 7 (by decide)⟩

/-- C5 counterexample: the Gemini adapter does inject a thinking
parameter when the tri-state signal is unset (`nil`), so "for every
backend adapter, unset injects nothing" is false on the code. -/
theorem c5_gemini_injects_on_unset :
    geminiInjectThinkingConfig [ModelOption.withParams Option.none] ≠
      [ModelOption.withParams Option.none] := by
  decide

/-- C5 (amended): with the thinking signal unset, the OpenAI, Grok,
Claude and OpenAI-Responses adapters forward the option list unchanged,
but the Gemini adapter appends an enabled high-level thinking config. -/
theorem c5_unset_thinking_per_adapter (modelName : String) (opts : List ModelOption)
    (h : GetParams opts = Option.none) :
    openAIInjectReasoningEffort modelName opts = opts ∧
    grokInjectReasoningEffort modelName opts = opts ∧
    claudeInjectThinkingConfig opts = opts ∧
    openAIResponseInjectReasoningConfig modelName opts = opts ∧
    geminiInjectThinkingConfig opts = opts ++ [.geminiThinking true .high] := by
  refine ⟨?_, ?_, ?_, ?_, ?_⟩ <;>
    simp [openAIInjectReasoningEffort, grokInjectReasoningEffort,
          claudeInjectThinkingConfig, openAIResponseInjectReasoningConfig,
          geminiInjectThinkingConfig, h]

theorem c5_unset_thinking_per_adapter_witness :
    GetParams [ModelOption.withParams Option.none] = Option.none ∧
    (openAIInjectReasoningEffort "gpt-5" [ModelOption.withParams Option.none] =
        [ModelOption.withParams Option.none] ∧
      grokInjectReasoningEffort "grok-reasoning" [ModelOption.withParams Option.none] =
        [ModelOption.withParams Option.none] ∧
      claudeInjectThinkingConfig [ModelOption.withParams Option.none] =
        [ModelOption.withParams Option.none] ∧
      openAIResponseInjectReasoningConfig "gpt-5" [ModelOption.withParams Option.none] =
        [ModelOption.withParams Option.none] ∧
      geminiInjectThinkingConfig [ModelOption.withParams Option.none] =
        [ModelOption.withParams Option.none] ++ [.geminiThinking true .high]) := by
  have h := c5_unset_thinking_per_adapter "gpt-5" [ModelOption.withParams Option.none]
    (by decide)
  have h' := c5_unset_thinking_per_adapter "grok-reasoning"
    [ModelOption.withParams Option.none] (by decide)
  exact ⟨by decide, h.1, h'.2.1, h.2.2.1, h.2.2.2.1, h.2.2.2.2⟩

/-- C9: an existing session with zero messages and a nonexistent session
are indistinguishable at the usecase interface — `GetSessionMessages`
returns `nil` for both, `GetSession` maps that to `ErrSessionNotFound`,
and in particular a conversation freshly created by `NewConversation`
(before any append, with a genuinely fresh session id) is reported as
"session not found". -/
theorem c9_empty_indistinguishable_from_missing (S : Store) (sid : String) :
    (GetSessionMessages S sid = Option.none ↔ currentSessionMsgs S sid = []) ∧
    (SessionExists S sid = false → GetSessionMessages S sid = Option.none) ∧
    (GetSessionMessages S sid = Option.none →
      GetSession S sid = .error .sessionNotFound) ∧
    (∀ (treeID : String) (now : Nat),
      S.messages.all (fun m => ¬ m.sessionID = sid) = true →
      GetSession (NewConversation S treeID sid now) sid = .error .sessionNotFound) := by
  refine ⟨GetSessionMessages_eq_none_iff S sid, ?_, ?_, ?_⟩
  · intro h
    rw [GetSessionMessages_eq_none_iff]
    unfold currentSessionMsgs treeRows
    rw [GetTreeID_none_of_not_exists h]
    rfl
  · intro h
    simp [GetSession, h]
  · intro treeID now hmsg
    have hcur : currentSessionMsgs (NewConversation S treeID sid now) sid = [] := by
      unfold currentSessionMsgs
      rw [List.filter_eq_nil_iff]
      intro n hn
      have hnm : n ∈ S.messages := by
        unfold treeRows at hn
        cases ht : GetTreeID (NewConversation S treeID sid now) sid with
        | none => rw [ht] at hn; simp at hn
        | some t =>
          rw [ht] at hn
          have := mem_sortById.mp hn
          have := List.mem_filter.mp this
          exact this.1
      have := List.all_eq_true.mp hmsg n hnm
      simpa using this
    have hnone := (GetSessionMessages_eq_none_iff _ sid).mpr hcur
    simp [GetSession, hnone]

theorem c9_empty_indistinguishable_from_missing_witness :
    sampleStore.messages.all (fun m => ¬ m.sessionID = "s1") = true ∧
    GetSession (NewConversation sampleStore "t9" "s1" 3) "s1" =
      .error .sessionNotFound ∧
    GetSessionMessages sampleStore "ghost" = Option.none := by
  have h := c9_empty_indistinguishable_from_missing sampleStore "s1"
  have h' := c9_empty_indistinguishable_from_missing sampleStore "ghost"
  exact ⟨by decide, h.2.2.2 "t9" 3 (by decide), h'.2.1 (by decide)⟩

/-- C6: the tree title after an append — it becomes the message text
(truncated to 15 runes plus an ellipsis marker when longer) exactly when
the title was still empty and the appended message is a user-role
message with nonempty text; in every other case (in particular whenever
the title is already non-empty) it is unchanged. -/
theorem c6_title_set_once (S : Store) (sid : String) (msg : Msg) (mdl : String)
    (now : Nat) (hex : SessionExists S sid = true)
    (htr : S.trees.any (fun t => t.id = (GetTreeID S sid).getD "") = true) :
    treeTitle (AppendMessage S sid msg mdl now).1 ((GetTreeID S sid).getD "") =
      if titleEmpty (treeTitle S ((GetTreeID S sid).getD "")) ∧
          msg.role = .user ∧ msg.content ≠ "" then
        some (if msg.content.toList.length > 15
              then String.mk (msg.content.toList.take 15) ++ "..."
              else msg.content)
      else treeTitle S ((GetTreeID S sid).getD "") := by
  rw [AppendMessage_ok S sid msg mdl now hex]
  exact um_treeTitle _ sid msg now htr

theorem c6_title_set_once_witness :
    SessionExists sampleStore "s1" = true ∧
    sampleStore.trees.any (fun t => t.id = (GetTreeID sampleStore "s1").getD "") = true ∧
    treeTitle (AppendMessage sampleStore "s1"
        { role := .user, content := "abcdefghijklmnopqrst" } "" 1).1
        ((GetTreeID sampleStore "s1").getD "") =
      if titleEmpty (treeTitle sampleStore ((GetTreeID sampleStore "s1").getD "")) ∧
          RoleType.user = RoleType.user ∧ "abcdefghijklmnopqrst" ≠ "" then
        some (if "abcdefghijklmnopqrst".toList.length > 15
              then String.mk ("abcdefghijklmnopqrst".toList.take 15) ++ "..."
              else "abcdefghijklmnopqrst")
      else treeTitle sampleStore ((GetTreeID sampleStore "s1").getD "") :=
  ⟨by decide, by decide,
   c6_title_set_once sampleStore "s1" { role := .user, content := "abcdefghijklmnopqrst" }
     "" 1 (by decide) (by decide)⟩

/-! ## C8: outbound filtering for a text-only backend -/

/-- Spec-side description (from §4.2 / the C8 test property) of what
happens to one user-authored part under a text-only backend. -/
def specTextOnlyReplaceInput (p : InputPart) : InputPart :=
  match p.type with
  | .imageURL => ⟨.text, "[Image]", ""⟩
  | .audioURL => ⟨.text, "[Audio]", ""⟩
  | .videoURL => ⟨.text, "[Video]", ""⟩
  | _ => p

/-- Spec-side description of the bracket tags a text-only backend gets
for assistant-generated parts. -/
def specTextOnlyTags (parts : List OutputPart) : List String :=
  parts.filterMap (fun p =>
    match p.type with
    | .imageURL => some "[Image]"
    | .audioURL => some "[Audio]"
    | .videoURL => some "[Video]"
    | _ => Option.none)

/-- Spec-side description of one outbound message after text-only
filtering: user-authored image/audio/video parts replaced by literal
placeholders, assistant-generated raw parts removed with their tags
appended to the text content. -/
def specTextOnlyMessage (m : Msg) : Msg :=
  let tags := specTextOnlyTags m.assistantGenMultiContent
  { m with
    userInputMultiContent := m.userInputMultiContent.map specTextOnlyReplaceInput
    assistantGenMultiContent := []
    content :=
      if tags = [] then m.content
      else if m.content = "" then joinSpace tags
      else m.content ++ "\n" ++ joinSpace tags }

theorem filterInput_textOnly (b : Bool) (parts : List InputPart) :
    filterInputMultiContent parts ⟨true, false, false, false, b⟩ =
      parts.map specTextOnlyReplaceInput := by
  induction parts with
  | nil => rfl
  | cons p rest ih =>
    cases hp : p.type <;>
      simp [filterInputMultiContent, specTextOnlyReplaceInput, hp, ih]

theorem specTextOnlyTags_mem_length {t : String} {parts : List OutputPart}
    (h : t ∈ specTextOnlyTags parts) : 0 < t.length := by
  simp only [specTextOnlyTags] at h
  obtain ⟨p, _, hf⟩ := List.mem_filterMap.mp h
  cases hpt : p.type <;> rw [hpt] at hf <;> simp at hf <;> rw [← hf] <;> decide

theorem joinSpace_length_pos {t : String} {rest : List String}
    (h : 0 < t.length) : 0 < (joinSpace (t :: rest)).length := by
  cases rest with
  | nil => simpa [joinSpace]
  | cons s rest' => simp [joinSpace, String.length_append]; omega

theorem buildContentPlaceholders_textOnly (b : Bool) (parts : List OutputPart) :
    buildContentPlaceholders parts ⟨true, false, false, false, b⟩ =
      if (specTextOnlyTags parts).length > 0 then joinSpace (specTextOnlyTags parts)
      else "" := rfl

/-- The per-message loop body agrees with the spec-side description for
a text-only backend. -/
theorem filterOne_textOnly (b : Bool) (m : Msg) :
    filterOneMessage ⟨true, false, false, false, b⟩ m = specTextOnlyMessage m := by
  obtain ⟨role, content, reasoning, nm, tcs, tcid, tnm, ex, ui, ag⟩ := m
  unfold filterOneMessage specTextOnlyMessage
  dsimp only
  rw [filterInput_textOnly, buildContentPlaceholders_textOnly]
  cases ag with
  | nil => cases ui <;> simp [specTextOnlyTags]
  | cons p ps =>
    cases hts : specTextOnlyTags (p :: ps) with
    | nil => cases ui <;> simp [hts]
    | cons t ts =>
      have hpos : 0 < (joinSpace (t :: ts)).length :=
        joinSpace_length_pos (specTextOnlyTags_mem_length
          (by rw [hts]; exact List.mem_cons_self t ts))
      by_cases hc : content = "" <;> cases ui <;> simp_all [hts]

/-- C8: for a text-only backend, outbound filtering replaces every
user-authored image/audio/video part with its literal bracketed text
placeholder, removes assistant-generated raw parts and appends their
bracket tags to the message text instead; a backend absent from the
capability registry passes through unchanged. -/
theorem c8_text_only_filtering (getCaps : CapLookup) (clientName : String)
    (msgs : List Msg) :
    (getCaps clientName = Option.none →
      FilterMultimodalContent getCaps msgs clientName = msgs) ∧
    (∀ caps, getCaps clientName = some caps →
      caps.supportsText = true → caps.supportsImage = false →
      caps.supportsAudio = false → caps.supportsVideo = false →
      FilterMultimodalContent getCaps msgs clientName =
        msgs.map specTextOnlyMessage) := by
  constructor
  · intro h
    simp [FilterMultimodalContent, h]
  · intro caps hcaps ht hi ha hv
    obtain ⟨ct, ci, ca, cv, cb⟩ := caps
    simp only at ht hi ha hv
    subst ht hi ha hv
    simp only [FilterMultimodalContent, hcaps]
    rw [if_pos (by simp)]
    exact List.map_congr_left (fun m _ => filterOne_textOnly cb m)

theorem c8_text_only_filtering_witness :
    hardcodedCaps "nonexistent-backend" = Option.none ∧
    FilterMultimodalContent hardcodedCaps
      [{ role := .user, userInputMultiContent := [⟨.imageURL, "", "pic"⟩] }]
      "nonexistent-backend" =
      [{ role := .user, userInputMultiContent := [⟨.imageURL, "", "pic"⟩] }] ∧
    hardcodedCaps "deepseek" = some ⟨true, false, false, false, false⟩ ∧
    FilterMultimodalContent hardcodedCaps
      [{ role := .user, userInputMultiContent := [⟨.imageURL, "", "pic"⟩] },
       { role := .assistant, content := "ans",
         assistantGenMultiContent := [⟨.imageURL, "out"⟩] }] "deepseek" =
      ([{ role := .user, userInputMultiContent := [⟨.imageURL, "", "pic"⟩] },
        { role := .assistant, content := "ans",
          assistantGenMultiContent := [⟨.imageURL, "out"⟩] }].map specTextOnlyMessage) := by
  have h1 := (c8_text_only_filtering hardcodedCaps "nonexistent-backend"
    [{ role := .user, userInputMultiContent := [⟨.imageURL, "", "pic"⟩] }]).1 (by decide)
  have h2 := (c8_text_only_filtering hardcodedCaps "deepseek"
    [{ role := .user, userInputMultiContent := [⟨.imageURL, "", "pic"⟩] },
     { role := .assistant, content := "ans",
       assistantGenMultiContent := [⟨.imageURL, "out"⟩] }]).2
    ⟨true, false, false, false, false⟩ (by decide) rfl rfl rfl rfl
  exact ⟨by decide, h1, by decide, h2⟩

/-! ## C4: backend resolution -/

/-- `findSome?` is insensitive to list order when every hit yields the
same value. -/
theorem findSome?_eq_of_unique {α β : Type} (l : List α) (f : α → Option β) (b : β)
    (h1 : ∀ a ∈ l, ∀ c, f a = some c → c = b)
    (h2 : ∃ a ∈ l, (f a).isSome = true) : l.findSome? f = some b := by
  induction l with
  | nil => simp at h2
  | cons a rest ih =>
    rw [List.findSome?_cons]
    cases hf : f a with
    | some c =>
      have := h1 a (by simp) c hf
      rw [this]
    | none =>
      obtain ⟨w, hw, hws⟩ := h2
      rcases List.mem_cons.mp hw with hwa | hwr
      · rw [hwa, hf] at hws; simp at hws
      · exact ih (fun x hx c hc => h1 x (by simp [hx]) c hc) ⟨w, hwr, hws⟩

/-- A configuration registering the backends the spec examples need. -/
def c4Clients : List String := ["openai", "claude", "glm", "kimi"]

/-- `clientKeywordsList` with the adjacent `glm` and `kimi` entries
swapped — another legal iteration order of the Go keyword map. -/
def clientKeywordsSwapped : List (String × List String) :=
  [("openai", ["gpt", "o1", "o3", "o4", "chatgpt"]),
   ("claude", ["claude"]),
   ("ark", ["doubao", "ep-"]),
   ("arkbot", ["bot-"]),
   ("deepseek", ["deepseek"]),
   ("gemini", ["gemini"]),
   ("grok", ["grok"]),
   ("kimi", ["kimi"]),
   ("glm", ["glm"]),
   ("minimax", ["minimax"]),
   ("ollama", ["llama", "gemma", "phi", "mistral", "codellama", "vicuna"]),
   ("openrouter", ["openrouter/"]),
   ("qianfan", ["ernie", "qianfan"]),
   ("qwen", ["qwen"])]

/-- C4 counterexample: `ResolveClient` iterates the keyword table with
Go's `range` over a map, whose order is unspecified.  For the model name
`"glm-kimi"` (matching two configured backends) two legal iteration
orders of the same table give different results, so the resolution is
neither "the first backend" of any fixed list nor a deterministic
function of the request and the registered-backend configuration. -/
theorem c4_order_dependent :
    List.Perm clientKeywordsList clientKeywordsSwapped ∧
    ResolveClientOrd c4Clients clientKeywordsList "glm-kimi" "" = "glm" ∧
    ResolveClientOrd c4Clients clientKeywordsSwapped "glm-kimi" "" = "kimi" := by
  refine ⟨by decide, by decide, by decide⟩

/-- C4 (amended): an explicitly requested registered backend always
wins; for a model whose keywords match exactly one configured backend
the keyword scan elects it under every iteration order of the keyword
map, and with no match the hardcoded `"openai"` default is returned — in
particular the three spec examples hold for every iteration order. -/
theorem c4_resolution_examples (order : List (String × List String))
    (hperm : List.Perm clientKeywordsList order) :
    ResolveClientOrd c4Clients order "gpt-4o-mini" "claude" = "claude" ∧
    ResolveClientOrd c4Clients order "claude-x" "" = "claude" ∧
    ResolveClientOrd c4Clients order "unknown-model" "" = "openai" := by
  refine ⟨?_, ?_, ?_⟩
  · unfold ResolveClientOrd
    rw [if_pos (by decide)]
  · unfold ResolveClientOrd
    rw [if_neg (by decide)]
    have hfact : ∀ e ∈ clientKeywordsList,
        scanKeywords c4Clients (lowerStr "claude-x") e.1 e.2 =
          (if e.1 = "claude" then some "claude" else Option.none) := by decide
    have hfind : order.findSome?
        (fun e => scanKeywords c4Clients (lowerStr "claude-x") e.1 e.2) =
          some "claude" := by
      refine findSome?_eq_of_unique _ _ _ ?_ ?_
      · intro a ha c hc
        have := hfact a (hperm.mem_iff.mpr ha)
        rw [this] at hc
        by_cases h : a.1 = "claude"
        · rw [if_pos h] at hc; exact (Option.some.injEq _ _ ▸ hc.symm)
        · rw [if_neg h] at hc; exact absurd hc (by simp)
      · refine ⟨("claude", ["claude"]), hperm.mem_iff.mp (by decide), by decide⟩
    rw [hfind]
  · unfold ResolveClientOrd
    rw [if_neg (by decide)]
    have hfact : ∀ e ∈ clientKeywordsList,
        scanKeywords c4Clients (lowerStr "unknown-model") e.1 e.2 =
          Option.none := by decide
    have hfind : order.findSome?
        (fun e => scanKeywords c4Clients (lowerStr "unknown-model") e.1 e.2) =
          Option.none :=
      List.findSome?_eq_none_iff.mpr
        (fun x hx => hfact x (hperm.mem_iff.mpr hx))
    rw [hfind]

theorem c4_resolution_examples_witness :
    ResolveClientOrd c4Clients clientKeywordsList "gpt-4o-mini" "claude" = "claude" ∧
    ResolveClientOrd c4Clients clientKeywordsList "claude-x" "" = "claude" ∧
    ResolveClientOrd c4Clients clientKeywordsList "unknown-model" "" = "openai" :=
  c4_resolution_examples clientKeywordsList (List.Perm.refl _)

/-! ## C2/C3: scripted streaming turns -/

theorem AppendMessage_not_exists (S : Store) (sid : String) (msg : Msg)
    (mdl : String) (now : Nat) (h : SessionExists S sid = false) :
    AppendMessage S sid msg mdl now = (S, .error .sessionNotFound) := by
  simp [AppendMessage, h]

theorem AppendMessage_SessionExists (S : Store) (sid : String) (msg : Msg)
    (mdl : String) (now : Nat) (x : String) :
    SessionExists (AppendMessage S sid msg mdl now).1 x = SessionExists S x := by
  by_cases h : SessionExists S sid
  · rw [AppendMessage_ok S sid msg mdl now h]
    exact um_SessionExists _ sid msg now x
  · rw [AppendMessage_not_exists S sid msg mdl now (by simpa using h)]

/-- The messages after a successful append: the old rows plus the new
one. -/
theorem AppendMessage_messages_ok (S : Store) (sid : String) (msg : Msg)
    (mdl : String) (now : Nat) (h : SessionExists S sid = true) :
    (AppendMessage S sid msg mdl now).1.messages =
      S.messages ++ [⟨S.nextMsgId, sid, lastMsgIdOf S sid, msg.role, mdl, .good msg⟩] := by
  rw [AppendMessage_ok S sid msg mdl now h]
  exact um_messages _ sid msg now

theorem AppendMessage_GetTreeID (S : Store) (sid : String) (msg : Msg)
    (mdl : String) (now : Nat) (h : SessionExists S sid = true) (x : String) :
    GetTreeID (AppendMessage S sid msg mdl now).1 x = GetTreeID S x := by
  rw [AppendMessage_ok S sid msg mdl now h]
  exact um_GetTreeID _ sid msg now x

/-- After appending to an existing session, the branch resolves to a
nonempty result. -/
theorem resolve_after_append_some (S : Store) (sid t : String) (msg : Msg)
    (mdl : String) (now : Nat) (ht : GetTreeID S sid = some t) :
    GetSessionMessages (AppendMessage S sid msg mdl now).1 sid ≠ Option.none := by
  have hex : SessionExists S sid = true := SessionExists_of_GetTreeID ht
  intro hnone
  have hcur := (GetSessionMessages_eq_none_iff _ sid).mp hnone
  set S₁ := (AppendMessage S sid msg mdl now).1 with hS₁
  have ht₁ : GetTreeID S₁ sid = some t := by
    rw [hS₁, AppendMessage_GetTreeID S sid msg mdl now hex]
    exact ht
  have hmsgs : S₁.messages =
      S.messages ++ [⟨S.nextMsgId, sid, lastMsgIdOf S sid, msg.role, mdl, .good msg⟩] := by
    rw [hS₁]
    exact AppendMessage_messages_ok S sid msg mdl now hex
  set node : MsgNode :=
    ⟨S.nextMsgId, sid, lastMsgIdOf S sid, msg.role, mdl, .good msg⟩ with hnode
  have hses : ∃ s ∈ S₁.sessions, s.id = sid ∧ s.treeID = t :=
    GetTreeID_some_exists ht₁
  have hmem : node ∈ treeRows S₁ sid := by
    unfold treeRows
    rw [ht₁, mem_sortById]
    refine List.mem_filter.mpr ⟨by simp [hmsgs], ?_⟩
    obtain ⟨s, hs, hsid, hst⟩ := hses
    exact List.any_eq_true.mpr ⟨s, hs, by simp [hsid, hst, hnode]⟩
  have : node ∈ currentSessionMsgs S₁ sid :=
    List.mem_filter.mpr ⟨hmem, by simp [hnode]⟩
  rw [hcur] at this
  simp at this

/-- The scripted backend of the C2 test property: content deltas `"He"`
then `"llo"`, then clean end-of-stream. -/
def helloScript : Script :=
  ⟨[{ role := .assistant, content := "He" }, { role := .assistant, content := "llo" }],
   Option.none⟩

/-- The scripted backend of the C3 test property: `"He"` then a receive
error. -/
def heErrScript : Script :=
  ⟨[{ role := .assistant, content := "He" }], some "stream interrupted"⟩

theorem consume_hello (events : List StreamEvent) :
    consumeStream [{ role := .assistant, content := "He" },
                   { role := .assistant, content := "llo" }] events "" "" [] =
      ((events ++ [.chunk ⟨"He", "", []⟩]) ++ [.chunk ⟨"llo", "", []⟩],
       "Hello", "", []) := rfl

theorem consume_he (events : List StreamEvent) :
    consumeStream [{ role := .assistant, content := "He" }] events "" "" [] =
      (events ++ [.chunk ⟨"He", "", []⟩], "He", "", []) := rfl

/-- Running a streaming turn against `helloScript` on an existing
session: the start event, the two chunk callbacks, the user and
assistant appends, and a clean return. -/
theorem ChatStream_hello_run (S : Store) (t dm ft fs : String) (now : Nat)
    (req : ChatRequest)
    (hne : ¬ req.session = "") (ht : GetTreeID S req.session = some t)
    (hmdl : ¬ req.model = "") :
    ChatStream S ft fs now dm req helloScript =
      ⟨[.start t req.session false, .chunk ⟨"He", "", []⟩, .chunk ⟨"llo", "", []⟩],
       (AppendMessage (AppendMessage S req.session (userMsgOfReq req) "" now).1
         req.session { role := .assistant, content := "Hello" } req.model now).1,
       Option.none⟩ := by
  have hex : SessionExists S req.session = true := SessionExists_of_GetTreeID ht
  have hex₁ : SessionExists
      (AppendMessage S req.session (userMsgOfReq req) "" now).1 req.session = true := by
    rw [AppendMessage_SessionExists]; exact hex
  have hres := resolve_after_append_some S req.session t (userMsgOfReq req) "" now ht
  obtain ⟨l, hl⟩ := Option.ne_none_iff_exists'.mp hres
  unfold ChatStream
  dsimp only
  rw [if_neg hne, ht]
  dsimp only
  rw [AppendMessage_ok _ _ _ _ _ hex]
  rw [AppendMessage_ok _ _ _ _ _ hex] at hl hex₁
  dsimp only at hl hex₁ ⊢
  rw [hl]
  dsimp only [helloScript]
  rw [if_neg hmdl]
  rw [consume_hello]
  dsimp only
  rw [AppendMessage_ok _ _ _ _ _ hex₁]
  dsimp only
  rfl

/-- Running a streaming turn against `heErrScript`: the start event, one
chunk callback, the user append — and the receive error with no
assistant append. -/
theorem ChatStream_he_err_run (S : Store) (t dm ft fs : String) (now : Nat)
    (req : ChatRequest)
    (hne : ¬ req.session = "") (ht : GetTreeID S req.session = some t) :
    ChatStream S ft fs now dm req heErrScript =
      ⟨[.start t req.session false, .chunk ⟨"He", "", []⟩],
       (AppendMessage S req.session (userMsgOfReq req) "" now).1,
       some (.recvStream "stream interrupted")⟩ := by
  have hex : SessionExists S req.session = true := SessionExists_of_GetTreeID ht
  have hres := resolve_after_append_some S req.session t (userMsgOfReq req) "" now ht
  obtain ⟨l, hl⟩ := Option.ne_none_iff_exists'.mp hres
  unfold ChatStream
  dsimp only
  rw [if_neg hne, ht]
  dsimp only
  rw [AppendMessage_ok _ _ _ _ _ hex]
  rw [AppendMessage_ok _ _ _ _ _ hex] at hl
  dsimp only at hl ⊢
  rw [hl]
  dsimp only [heErrScript]
  rw [consume_he]
  rfl

/-- C2: with the backend emitting content deltas "He" then "llo" and a
clean end-of-stream, exactly two chunk callbacks fire with those literal
deltas, the SSE transport emits them followed by exactly one `done`
sentinel, and exactly one assistant message is persisted whose content
is the concatenation "Hello" (reasoning and multimodal accumulators
empty), tagged with the request's model name. -/
theorem c2_stream_hello_turn (S : Store) (t dm ft fs : String) (now : Nat)
    (req : ChatRequest)
    (hne : ¬ req.session = "") (ht : GetTreeID S req.session = some t)
    (hmdl : ¬ req.model = "") (hrole : req.role = "user") :
    (ChatStream S ft fs now dm req helloScript).err = Option.none ∧
    (ChatStream S ft fs now dm req helloScript).events =
      [.start t req.session false, .chunk ⟨"He", "", []⟩, .chunk ⟨"llo", "", []⟩] ∧
    (handlerChat S ft fs now dm req helloScript).1 =
      [.info t req.session false, .content "He", .content "llo", .done] ∧
    ∃ u a : MsgNode,
      (ChatStream S ft fs now dm req helloScript).store.messages =
        S.messages ++ [u] ++ [a] ∧
      u.sessionID = req.session ∧ u.role = .user ∧ u.model = "" ∧
      u.data = .good (userMsgOfReq req) ∧
      a.sessionID = req.session ∧ a.role = .assistant ∧ a.model = req.model ∧
      a.data = .good { role := .assistant, content := "Hello" } := by
  have hrun := ChatStream_hello_run S t dm ft fs now req hne ht hmdl
  have hex : SessionExists S req.session = true := SessionExists_of_GetTreeID ht
  have hex₁ : SessionExists
      (AppendMessage S req.session (userMsgOfReq req) "" now).1 req.session = true := by
    rw [AppendMessage_SessionExists]; exact hex
  refine ⟨by rw [hrun], by rw [hrun], ?_, ?_⟩
  · simp only [handlerChat]
    rw [hrun]
    rfl
  · refine ⟨⟨S.nextMsgId, req.session, lastMsgIdOf S req.session,
      (userMsgOfReq req).role, "", .good (userMsgOfReq req)⟩,
      ⟨(AppendMessage S req.session (userMsgOfReq req) "" now).1.nextMsgId, req.session,
        lastMsgIdOf (AppendMessage S req.session (userMsgOfReq req) "" now).1 req.session,
        RoleType.assistant, req.model, .good { role := .assistant, content := "Hello" }⟩,
      ?_, rfl, ?_, rfl, rfl, rfl, rfl, rfl, rfl⟩
    · rw [hrun]
      dsimp only
      rw [AppendMessage_messages_ok _ _ _ _ _ hex₁,
          AppendMessage_messages_ok _ _ _ _ _ hex]
    · simp [userMsgOfReq, parseRole, hrole]

theorem c2_stream_hello_turn_witness :
    (¬ ("s1" : String) = "") ∧
    GetTreeID sampleStore "s1" = some "t1" ∧
    ((ChatStream sampleStore "ft" "fs" 5 "dm"
        { role := "user", content := "hi", model := "m1", session := "s1" }
        helloScript).err = Option.none ∧
      (ChatStream sampleStore "ft" "fs" 5 "dm"
        { role := "user", content := "hi", model := "m1", session := "s1" }
        helloScript).events =
        [.start "t1" "s1" false, .chunk ⟨"He", "", []⟩, .chunk ⟨"llo", "", []⟩] ∧
      (handlerChat sampleStore "ft" "fs" 5 "dm"
        { role := "user", content := "hi", model := "m1", session := "s1" }
        helloScript).1 =
        [.info "t1" "s1" false, .content "He", .content "llo", .done] ∧
      ∃ u a : MsgNode,
        (ChatStream sampleStore "ft" "fs" 5 "dm"
          { role := "user", content := "hi", model := "m1", session := "s1" }
          helloScript).store.messages = sampleStore.messages ++ [u] ++ [a] ∧
        u.sessionID = "s1" ∧ u.role = .user ∧ u.model = "" ∧
        u.data = .good (userMsgOfReq
          { role := "user", content := "hi", model := "m1", session := "s1" }) ∧
        a.sessionID = "s1" ∧ a.role = .assistant ∧ a.model = "m1" ∧
        a.data = .good { role := .assistant, content := "Hello" }) :=
  ⟨by decide, by decide,
   c2_stream_hello_turn sampleStore "t1" "dm" "ft" "fs" 5
     { role := "user", content := "hi", model := "m1", session := "s1" }
     (by decide) (by decide) (by decide) rfl⟩

/-- C3: with the backend failing mid-turn after emitting "He", the turn
returns the receive error, the transport reports an error event (not the
`done` sentinel), and only the user message is persisted: the branch
afterwards holds exactly that user message and no assistant message; the
accumulated partial content is discarded. -/
theorem c3_stream_error_discards (S : Store) (t dm ft fs : String) (now : Nat)
    (req : ChatRequest)
    (hne : ¬ req.session = "") (ht : GetTreeID S req.session = some t)
    (hrole : req.role = "user")
    (hfresh : S.messages.filter (fun m => m.sessionID = req.session) = []) :
    (ChatStream S ft fs now dm req heErrScript).err =
      some (.recvStream "stream interrupted") ∧
    (ChatStream S ft fs now dm req heErrScript).events =
      [.start t req.session false, .chunk ⟨"He", "", []⟩] ∧
    (handlerChat S ft fs now dm req heErrScript).1 =
      [.info t req.session false, .content "He", .errorOther] ∧
    ∃ u : MsgNode,
      (ChatStream S ft fs now dm req heErrScript).store.messages =
        S.messages ++ [u] ∧
      (ChatStream S ft fs now dm req heErrScript).store.messages.filter
          (fun m => m.sessionID = req.session) = [u] ∧
      u.role = .user ∧ u.model = "" ∧ u.data = .good (userMsgOfReq req) ∧
      ∀ m ∈ (ChatStream S ft fs now dm req heErrScript).store.messages.filter
          (fun m => m.sessionID = req.session), ¬ m.role = .assistant := by
  have hrun := ChatStream_he_err_run S t dm ft fs now req hne ht
  have hex : SessionExists S req.session = true := SessionExists_of_GetTreeID ht
  have hmsgs : (ChatStream S ft fs now dm req heErrScript).store.messages =
      S.messages ++ [⟨S.nextMsgId, req.session, lastMsgIdOf S req.session,
        (userMsgOfReq req).role, "", .good (userMsgOfReq req)⟩] := by
    rw [hrun]
    exact AppendMessage_messages_ok _ _ _ _ _ hex
  have hurole : (userMsgOfReq req).role = RoleType.user := by
    simp [userMsgOfReq, parseRole, hrole]
  refine ⟨by rw [hrun], by rw [hrun], ?_, ?_⟩
  · simp only [handlerChat]
    rw [hrun]
    rfl
  · refine ⟨⟨S.nextMsgId, req.session, lastMsgIdOf S req.session,
      (userMsgOfReq req).role, "", .good (userMsgOfReq req)⟩, hmsgs, ?_, hurole,
      rfl, rfl, ?_⟩
    · rw [hmsgs, List.filter_append, hfresh]
      simp
    · intro m hm
      rw [hmsgs, List.filter_append, hfresh] at hm
      simp at hm
      rw [hm, hurole]
      simp

theorem c3_stream_error_discards_witness :
    (¬ ("s1" : String) = "") ∧
    GetTreeID sampleStore "s1" = some "t1" ∧
    sampleStore.messages.filter (fun m => m.sessionID = "s1") = [] ∧
    ((ChatStream sampleStore "ft" "fs" 5 "dm"
        { role := "user", content := "hi", model := "m1", session := "s1" }
        heErrScript).err = some (.recvStream "stream interrupted") ∧
      (ChatStream sampleStore "ft" "fs" 5 "dm"
        { role := "user", content := "hi", model := "m1", session := "s1" }
        heErrScript).events = [.start "t1" "s1" false, .chunk ⟨"He", "", []⟩] ∧
      (handlerChat sampleStore "ft" "fs" 5 "dm"
        { role := "user", content := "hi", model := "m1", session := "s1" }
        heErrScript).1 = [.info "t1" "s1" false, .content "He", .errorOther] ∧
      ∃ u : MsgNode,
        (ChatStream sampleStore "ft" "fs" 5 "dm"
          { role := "user", content := "hi", model := "m1", session := "s1" }
          heErrScript).store.messages = sampleStore.messages ++ [u] ∧
        (ChatStream sampleStore "ft" "fs" 5 "dm"
          { role := "user", content := "hi", model := "m1", session := "s1" }
          heErrScript).store.messages.filter (fun m => m.sessionID = "s1") = [u] ∧
        u.role = .user ∧ u.model = "" ∧
        u.data = .good (userMsgOfReq
          { role := "user", content := "hi", model := "m1", session := "s1" }) ∧
        ∀ m ∈ (ChatStream sampleStore "ft" "fs" 5 "dm"
            { role := "user", content := "hi", model := "m1", session := "s1" }
            heErrScript).store.messages.filter (fun m => m.sessionID = "s1"),
          ¬ m.role = .assistant) :=
  ⟨by decide, by decide, by decide,
   c3_stream_error_discards sampleStore "t1" "dm" "ft" "fs" 5
     { role := "user", content := "hi", model := "m1", session := "s1" }
     (by decide) (by decide) rfl (by decide)⟩

/-! ## C1/C10: the ancestor walk -/

theorem mem_treeRows {S : Store} {sid : String} {n : MsgNode}
    (h : n ∈ treeRows S sid) : n ∈ S.messages := by
  unfold treeRows at h
  cases ht : GetTreeID S sid with
  | none => rw [ht] at h; simp at h
  | some t =>
    rw [ht] at h
    exact (List.mem_filter.mp (mem_sortById.mp h)).1

theorem treeRows_pairwise (S : Store) (sid : String)
    (h : List.Pairwise (fun a b : MsgNode => a.id < b.id) S.messages) :
    List.Pairwise (fun a b : MsgNode => a.id < b.id) (treeRows S sid) := by
  unfold treeRows
  cases ht : GetTreeID S sid with
  | none => exact List.Pairwise.nil
  | some t =>
    dsimp only
    have hf := h.filter (fun m =>
      S.sessions.any (fun s => s.id = m.sessionID ∧ s.treeID = t))
    rw [sortById_eq_of_pairwise hf]
    exact hf

/-- The ancestor loop, under the parent-below-child invariant: it
returns some prefix of decodable rows with strictly increasing ids, all
at or below the starting parent id. -/
theorem walkAnc_spec (rows : List MsgNode)
    (hpar : ∀ n ∈ rows, ∀ p, n.parentID = some p → p < n.id) :
    ∀ (pid fuel : Nat), pid < fuel → ∀ (acc : List MsgNode),
      ∃ pre, walkAnc rows fuel pid acc = pre ++ acc ∧
        List.Pairwise (fun a b : MsgNode => a.id < b.id) pre ∧
        ∀ n ∈ pre, n.id ≤ pid ∧ (n.data.dec).isSome = true ∧ n ∈ rows := by
  intro pid
  induction pid using Nat.strong_induction_on with
  | _ pid ih =>
    intro fuel hfuel acc
    cases fuel with
    | zero => omega
    | succ f =>
      cases pid with
      | zero => exact ⟨[], rfl, List.Pairwise.nil, by simp⟩
      | succ q =>
        simp only [walkAnc]
        cases hfind : findNode rows (q + 1) with
        | none => exact ⟨[], rfl, List.Pairwise.nil, by simp⟩
        | some node =>
          have hid : node.id = q + 1 := by
            simpa using List.find?_some hfind
          have hmem : node ∈ rows := List.mem_of_find?_eq_some hfind
          cases hparent : node.parentID with
          | none =>
            cases hdec : (node.data.dec).isSome with
            | false => exact ⟨[], by simp [hdec, hparent], List.Pairwise.nil, by simp⟩
            | true =>
              refine ⟨[node], by simp [hdec, hparent], List.pairwise_singleton _ _, ?_⟩
              intro n hn
              rw [List.mem_singleton] at hn
              subst hn
              exact ⟨by omega, hdec, hmem⟩
          | some p =>
            have hp : p < q + 1 := hid ▸ hpar node hmem p hparent
            have hpf : p < f := by omega
            cases hdec : (node.data.dec).isSome with
            | false =>
              obtain ⟨pre, heq, hpw, hprops⟩ := ih p hp f hpf acc
              refine ⟨pre, by simp [hdec, hparent, heq], hpw, ?_⟩
              intro n hn
              obtain ⟨h1, h2, h3⟩ := hprops n hn
              exact ⟨by omega, h2, h3⟩
            | true =>
              obtain ⟨pre, heq, hpw, hprops⟩ := ih p hp f hpf (node :: acc)
              refine ⟨pre ++ [node], ?_, ?_, ?_⟩
              · simp only [hdec, hparent, if_true]
                rw [heq, List.append_assoc, List.singleton_append]
              · refine List.pairwise_append.mpr ⟨hpw, List.pairwise_singleton _ _, ?_⟩
                intro a ha b hb
                rw [List.mem_singleton] at hb
                subst hb
                have := (hprops a ha).1
                omega
              · intro n hn
                rcases List.mem_append.mp hn with hn' | hn'
                · obtain ⟨h1, h2, h3⟩ := hprops n hn'
                  exact ⟨by omega, h2, h3⟩
                · rw [List.mem_singleton] at hn'
                  subst hn'
                  exact ⟨by omega, hdec, hmem⟩

/-- Under the parent-below-child invariant the walk is fuel-independent
once the fuel exceeds the starting parent id: the Go loop terminates. -/
theorem walkAnc_fuel_stable (rows : List MsgNode)
    (hpar : ∀ n ∈ rows, ∀ p, n.parentID = some p → p < n.id) :
    ∀ (pid fuel₁ fuel₂ : Nat), pid < fuel₁ → pid < fuel₂ → ∀ (acc : List MsgNode),
      walkAnc rows fuel₁ pid acc = walkAnc rows fuel₂ pid acc := by
  intro pid
  induction pid using Nat.strong_induction_on with
  | _ pid ih =>
    intro fuel₁ fuel₂ h₁ h₂ acc
    cases fuel₁ with
    | zero => omega
    | succ f₁ =>
      cases fuel₂ with
      | zero => omega
      | succ f₂ =>
        cases pid with
        | zero => rfl
        | succ q =>
          simp only [walkAnc]
          cases hfind : findNode rows (q + 1) with
          | none => rfl
          | some node =>
            have hid : node.id = q + 1 := by
              simpa using List.find?_some hfind
            have hmem : node ∈ rows := List.mem_of_find?_eq_some hfind
            cases hparent : node.parentID with
            | none => simp only [hparent]
            | some p =>
              have hp : p < q + 1 := hid ▸ hpar node hmem p hparent
              simp only [hparent]
              exact ih p hp f₁ f₂ (by omega) (by omega) _

/-- C1: for every store satisfying the id-ordering and parent-below-child
invariants, when the branch has at least one message the resolver returns
the ancestors collected by the parent-chain walk (each decodable, each a
row of the branch's tree, with strictly increasing ids) followed by the
branch's own decodable rows, and the whole result is in strictly
increasing message-id order; undecodable stored payloads are skipped
without aborting the resolve (the result is `some _`, never `nil`). -/
theorem c1_resolve_ancestors_then_branch (S : Store) (sid : String)
    (hsorted : List.Pairwise (fun a b : MsgNode => a.id < b.id) S.messages)
    (hpar : parentLtB S.messages = true)
    (hne : currentSessionMsgs S sid ≠ []) :
    ∃ anc : List MsgNode,
      GetSessionMessages S sid =
        some (anc.map nodeCR ++ (currentSessionMsgs S sid).filterMap nodeDec) ∧
      List.Pairwise (fun a b : MsgNode => a.id < b.id)
        (anc ++ currentSessionMsgs S sid) ∧
      ∀ n ∈ anc, (n.data.dec).isSome = true ∧ n ∈ treeRows S sid := by
  have hrows_pw := treeRows_pairwise S sid hsorted
  have hrows_par : ∀ n ∈ treeRows S sid, ∀ p, n.parentID = some p → p < n.id :=
    fun n hn => parentLtB_iff.mp hpar n (mem_treeRows hn)
  have hcur_pw : List.Pairwise (fun a b : MsgNode => a.id < b.id)
      (currentSessionMsgs S sid) := hrows_pw.filter _
  cases hcur : currentSessionMsgs S sid with
  | nil => exact absurd hcur hne
  | cons first rest =>
    have hcur' : (treeRows S sid).filter (fun n => n.sessionID = sid) =
        first :: rest := hcur
    have hfirst_rows : first ∈ treeRows S sid := by
      have hmem : first ∈ (treeRows S sid).filter (fun n => n.sessionID = sid) := by
        rw [hcur']
        exact List.mem_cons_self _ _
      exact (List.mem_filter.mp hmem).1
    have hcpw : List.Pairwise (fun a b : MsgNode => a.id < b.id) (first :: rest) :=
      hcur ▸ hcur_pw
    unfold GetSessionMessages
    dsimp only
    rw [hcur']
    dsimp only
    cases hpid : first.parentID with
    | none =>
      refine ⟨[], ?_, ?_, by simp⟩
      · simp
      · simpa using hcpw
    | some pid0 =>
      have hpid0 : pid0 < first.id := hrows_par first hfirst_rows pid0 hpid
      obtain ⟨pre, heq, hpw, hprops⟩ :=
        walkAnc_spec (treeRows S sid) hrows_par pid0 (pid0 + 1) (by omega) []
      rw [List.append_nil] at heq
      refine ⟨pre, ?_, ?_, fun n hn => ⟨(hprops n hn).2.1, (hprops n hn).2.2⟩⟩
      · dsimp only
        rw [heq]
      · refine List.pairwise_append.mpr ⟨hpw, hcpw, ?_⟩
        intro a ha b hb
        have hale : a.id ≤ pid0 := (hprops a ha).1
        have hble : first.id ≤ b.id := by
          rcases List.mem_cons.mp hb with hb' | hb'
          · rw [hb']
          · exact Nat.le_of_lt (List.rel_of_pairwise_cons hcpw hb')
        omega


/-- Every store reachable through `NewConversation`, `AppendMessage` and
`CreateBranchWithMessage` keeps message ids below the AUTOINCREMENT
counter, strictly increasing, and every parent id strictly below its
child's id. -/
theorem reachable_wf {S : Store} (h : Reachable S) :
    (∀ m ∈ S.messages, m.id < S.nextMsgId) ∧
    List.Pairwise (fun a b : MsgNode => a.id < b.id) S.messages ∧
    parentLtB S.messages = true := by
  induction h with
  | init =>
    exact ⟨by simp [emptyStore], by simp [emptyStore], by simp [emptyStore, parentLtB]⟩
  | newConv S tid sid now hr ih => exact ih
  | append S sid msg mdl now hr ih =>
    obtain ⟨hbound, hpw, hpar⟩ := ih
    by_cases hex : SessionExists S sid
    · rw [AppendMessage_ok _ _ _ _ _ hex]
      simp only [um_messages, um_nextMsgId]
      refine ⟨?_, ?_, ?_⟩
      · intro m hm
        rcases List.mem_append.mp hm with hm' | hm'
        · have := hbound m hm'
          omega
        · rw [List.mem_singleton] at hm'
          subst hm'
          dsimp only
          omega
      · refine List.pairwise_append.mpr ⟨hpw, List.pairwise_singleton _ _, ?_⟩
        intro a ha b hb
        rw [List.mem_singleton] at hb
        subst hb
        exact hbound a ha
      · rw [parentLtB, List.all_append]
        rw [parentLtB] at hpar
        rw [hpar, Bool.true_and]
        simp only [List.all_cons, List.all_nil, Bool.and_true]
        dsimp only
        cases hlast : lastMsgIdOf S sid with
        | none => rfl
        | some p =>
          unfold lastMsgIdOf at hlast
          obtain ⟨n', hn', hid⟩ := maxIdOf_mem hlast
          have hn'' : n' ∈ S.messages := (List.mem_filter.mp hn').1
          have hlt := hbound n' hn''
          rw [decide_eq_true_eq]
          omega
    · rw [AppendMessage_not_exists _ _ _ _ _ (by simpa using hex)]
      exact ⟨hbound, hpw, hpar⟩
  | branch S pmid nsid msg now hr ih =>
    obtain ⟨hbound, hpw, hpar⟩ := ih
    unfold CreateBranchWithMessage
    cases htree : treeOfMessage S pmid with
    | none => exact ⟨hbound, hpw, hpar⟩
    | some t =>
      dsimp only
      have hpm : pmid < S.nextMsgId := by
        unfold treeOfMessage at htree
        obtain ⟨m, hfind, -⟩ := Option.bind_eq_some.mp htree
        have hmem : m ∈ S.messages := List.mem_of_find?_eq_some hfind
        have hmid : m.id = pmid := by simpa using List.find?_some hfind
        have := hbound m hmem
        omega
      simp only [um_messages, um_nextMsgId]
      refine ⟨?_, ?_, ?_⟩
      · intro m hm
        rcases List.mem_append.mp hm with hm' | hm'
        · have := hbound m hm'
          omega
        · rw [List.mem_singleton] at hm'
          subst hm'
          dsimp only
          omega
      · refine List.pairwise_append.mpr ⟨hpw, List.pairwise_singleton _ _, ?_⟩
        intro a ha b hb
        rw [List.mem_singleton] at hb
        subst hb
        exact hbound a ha
      · rw [parentLtB, List.all_append]
        rw [parentLtB] at hpar
        rw [hpar, Bool.true_and]
        simp only [List.all_cons, List.all_nil, Bool.and_true]
        dsimp only
        rw [decide_eq_true_eq]
        omega

/-- C10: in every reachable store each message's parent id is strictly
below its own id, and consequently the ancestor walk of
`GetSessionMessages` terminates: its result is independent of the number
of loop iterations the embedding unfolds, once past the starting parent
id. -/
theorem c10_parent_lt_and_walk_terminates (S : Store) (h : Reachable S) :
    parentLtB S.messages = true ∧
    ∀ (sid : String) (pid : Nat) (acc : List MsgNode) (fuel₁ fuel₂ : Nat),
      pid < fuel₁ → pid < fuel₂ →
      walkAnc (treeRows S sid) fuel₁ pid acc = walkAnc (treeRows S sid) fuel₂ pid acc := by
  have hwf := reachable_wf h
  refine ⟨hwf.2.2, ?_⟩
  intro sid pid acc f₁ f₂ h₁ h₂
  have hrows_par : ∀ n ∈ treeRows S sid, ∀ p, n.parentID = some p → p < n.id :=
    fun n hn => parentLtB_iff.mp hwf.2.2 n (mem_treeRows hn)
  exact walkAnc_fuel_stable _ hrows_par pid f₁ f₂ h₁ h₂ acc

/-- A store built by the three mutating operations: a conversation with
two turns and a fork off the assistant message. -/
def reachStore : Store :=
  (CreateBranchWithMessage
    (AppendMessage
      (AppendMessage (NewConversation emptyStore "t1" "s1" 0) "s1"
        { role := .user, content := "hi" } "" 1).1
      "s1" { role := .assistant, content := "yo" } "g" 2).1
    2 "s2" { role := .user, content := "fork" } 3).1

/-- `reachStore` is reachable (witnessing derivation). -/
theorem reachStore_reachable : Reachable reachStore :=
  Reachable.branch _ 2 "s2" { role := .user, content := "fork" } 3
    (Reachable.append _ "s1" { role := .assistant, content := "yo" } "g" 2
      (Reachable.append _ "s1" { role := .user, content := "hi" } "" 1
        (Reachable.newConv _ "t1" "s1" 0 Reachable.init)))

theorem c10_parent_lt_and_walk_terminates_witness :
    parentLtB reachStore.messages = true ∧
    walkAnc (treeRows reachStore "s2") 3 2 [] = walkAnc (treeRows reachStore "s2") 9 2 [] := by
  have h := c10_parent_lt_and_walk_terminates reachStore reachStore_reachable
  exact ⟨h.1, h.2 "s2" 2 [] 3 9 (by omega) (by omega)⟩

/-- A store with a fork and one undecodable stored payload, used to
witness C1: branch `sB` forks off message 2 of branch `sA`, and message
2's payload is malformed. -/
def forkStore : Store :=
  { trees := [⟨"t", Option.none, 0⟩],
    sessions := [⟨"sA", "t", 2⟩, ⟨"sB", "t", 2⟩],
    messages :=
      [⟨1, "sA", Option.none, .user, "", .good { role := .user, content := "q1" }⟩,
       ⟨2, "sA", some 1, .assistant, "g", .bad⟩,
       ⟨3, "sB", some 2, .user, "", .good { role := .user, content := "q2" }⟩,
       ⟨4, "sB", some 3, .assistant, "g", .good { role := .assistant, content := "a2" }⟩],
    nextMsgId := 5 }

theorem c1_resolve_ancestors_then_branch_witness :
    List.Pairwise (fun a b : MsgNode => a.id < b.id) forkStore.messages ∧
    parentLtB forkStore.messages = true ∧
    currentSessionMsgs forkStore "sB" ≠ [] ∧
    ∃ anc : List MsgNode,
      GetSessionMessages forkStore "sB" =
        some (anc.map nodeCR ++ (currentSessionMsgs forkStore "sB").filterMap nodeDec) ∧
      List.Pairwise (fun a b : MsgNode => a.id < b.id)
        (anc ++ currentSessionMsgs forkStore "sB") ∧
      ∀ n ∈ anc, (n.data.dec).isSome = true ∧ n ∈ treeRows forkStore "sB" :=
  ⟨by decide, by decide, by decide,
   c1_resolve_ancestors_then_branch forkStore "sB" (by decide) (by decide) (by decide)⟩

end DevopsBackend
